import Mathlib

/-!
Verification of the clean-old-daily-notes plugin core (`src/main.ts`).

Text is modelled as `List Char` (one element per code point; every pattern the
code matches on is ASCII, so this coincides with the JS code-unit view wherever
it matters).  The embedded definitions mirror, in order:

* `isJsWs` / `isBlank` / `jsTrim` — the JS `\s` character class, `trim()`, and
  the blank-line test `line.trim() === ''`;
* `splitLines` / `joinLines` — `text.split('\n')` and `lines.join('\n')`;
* `isHeading` — the regex `/^#+\s/`;
* `findFenceIdx` / `stripFromF` / `stripBlocks` — the global replace
  `out.replace(/<fence>tag[\s\S]*?<fence>/g, '')` where `<fence>` is three
  backticks: repeatedly find the leftmost occurrence of the opening pattern
  that is followed by a later occurrence of three backticks, delete through
  the first such closing fence, and resume scanning after the deleted span
  (`stripFromF` carries explicit fuel so that the definition is structural
  and kernel-evaluable; fuel `text.length` always suffices);
* `pruneLinesF` / `pruneLines` / `removeEmptySections` — the index-rewriting
  loop of `removeEmptySections`;
* `CleanNotesSettings` / `DEFAULT_SETTINGS` / `applyTransforms` — the settings
  record and the transform pipeline;
* `dateAt` / `findFirstDate` / `isValidDate` / `epochDays` / `isOldEnough` —
  `basename.match(/(\d{4}-\d{2}-\d{2})/)`, the `new Date(...)` validity check
  (ISO parse: real calendar dates only), and the fractional-day age test.
  JS time values are integral milliseconds, so `now` is an `Int`; the
  division by 86 400 000 is exact rational division, per the design note that
  the fractional-day comparison is the intended semantics;
* `VFile` / `VEntry` / `cleanNotes` — the orchestration loop over
  `folder.children`, with the store collaborator's read/write failures
  modelled by per-file flags: a failing read or write makes the surrounding
  `async` function reject, which ends the loop, leaves every remaining entry
  untouched, and skips the completion notice (`Bool` result `false`).
-/

/-- The JS whitespace class `\s` (also used by `String.prototype.trim`). -/
def isJsWs (c : Char) : Bool :=
  let v := c.toNat
  v == 9 || v == 10 || v == 11 || v == 12 || v == 13 || v == 32 || v == 160 ||
  v == 5760 || (8192 ≤ v && v ≤ 8202) || v == 8232 || v == 8233 || v == 8239 ||
  v == 8287 || v == 12288 || v == 65279

/-- `line.trim() === ''`: every character is whitespace. -/
def isBlank (l : List Char) : Bool := l.all isJsWs

def trimStart (l : List Char) : List Char := l.dropWhile isJsWs

def trimEnd (l : List Char) : List Char := (l.reverse.dropWhile isJsWs).reverse

/-- JS `String.prototype.trim`. -/
def jsTrim (l : List Char) : List Char := trimEnd (trimStart l)

/-- `text.split('\n')` (never returns the empty list; `"" ↦ [""]`). -/
def splitLines : List Char → List (List Char)
  | [] => [[]]
  | c :: rest =>
    if c == '\n' then [] :: splitLines rest
    else
      match splitLines rest with
      | [] => [[c]]
      | l :: ls => (c :: l) :: ls

/-- `lines.join('\n')`. -/
def joinLines (ls : List (List Char)) : List Char := List.intercalate ['\n'] ls

/-- After the leading `#`s of `/^#+\s/`: skip further `#`s, then require one
whitespace character. -/
def headingTail : List Char → Bool
  | [] => false
  | c :: rest => if c == '#' then headingTail rest else isJsWs c

/-- The regex test `/^#+\s/.test(line)`. -/
def isHeading : List Char → Bool
  | [] => false
  | c :: rest => c == '#' && headingTail rest

/-- The backtick character (code 96). -/
def btChar : Char := Char.ofNat 96

/-- Three backticks, the fence delimiter of the block-stripping regexes. -/
def fence : List Char := [btChar, btChar, btChar]

/-- Index of the first occurrence of three backticks (the lazy `[\s\S]*?`
closing-fence search of the regex). -/
def findFenceIdx : List Char → Option Nat
  | [] => none
  | c :: rest =>
    if fence.isPrefixOf (c :: rest) then some 0
    else (findFenceIdx rest).map (· + 1)

/-- One pass of the global replace `text.replace(/<fence>tag[\s\S]*?<fence>/g, '')`:
scan left to right; at an occurrence of the opening pattern followed by a later
three-backtick occurrence, delete through the first closing fence and resume
after it; otherwise keep the character and move on.  `fuel ≥ l.length` makes
the recursion total and never runs out. -/
def stripFromF (tag : List Char) : Nat → List Char → List Char
  | 0, l => l
  | _ + 1, [] => []
  | fuel + 1, c :: rest =>
    if (fence ++ tag).isPrefixOf (c :: rest) then
      match findFenceIdx ((c :: rest).drop (3 + tag.length)) with
      | some j => stripFromF tag fuel (((c :: rest).drop (3 + tag.length)).drop (j + 3))
      | none => c :: stripFromF tag fuel rest
    else c :: stripFromF tag fuel rest

/-- The global regex replace that removes fenced blocks opened by
three backticks immediately followed by `tag`. -/
def stripBlocks (tag text : List Char) : List Char := stripFromF tag text.length text

/-- The body of `removeEmptySections`' `for` loop: on a heading line, scan the
following lines up to the next heading; if all are blank, drop the heading and
the scanned lines and resume at the line that stopped the scan (`i = j - 1;
continue`), else keep the line.  Fuel as in `stripFromF`. -/
def pruneLinesF : Nat → List (List Char) → List (List Char)
  | 0, ls => ls
  | _ + 1, [] => []
  | fuel + 1, l :: rest =>
    if isHeading l then
      if ((rest.takeWhile fun x => !isHeading x).all isBlank) then
        pruneLinesF fuel (rest.dropWhile fun x => !isHeading x)
      else l :: pruneLinesF fuel rest
    else l :: pruneLinesF fuel rest

def pruneLines (ls : List (List Char)) : List (List Char) := pruneLinesF ls.length ls

/-- `removeEmptySections` from the source: split, prune, rejoin. -/
def removeEmptySections (text : List Char) : List Char :=
  joinLines (pruneLines (splitLines text))

/-- The `CleanNotesSettings` interface. -/
structure CleanNotesSettings where
  dailyNotesFolder : List Char
  daysAfter : Int
  removeButtons : Bool
  removeTaskQueries : Bool
  removeEmptySections : Bool
deriving DecidableEq

/-- `DEFAULT_SETTINGS` from the source. -/
def DEFAULT_SETTINGS : CleanNotesSettings :=
  { dailyNotesFolder := []
    daysAfter := 7
    removeButtons := true
    removeTaskQueries := true
    removeEmptySections := true }

def buttonTag : List Char := ("button".toList)

def tasksTag : List Char := ("tasks".toList)

/-- `applyTransforms`: strip `button` blocks, strip `tasks` blocks, prune empty
sections — each guarded by its flag — then `out.trim() + '\n'`. -/
def applyTransforms (s : CleanNotesSettings) (text : List Char) : List Char :=
  let o1 := if s.removeButtons then stripBlocks buttonTag text else text
  let o2 := if s.removeTaskQueries then stripBlocks tasksTag o1 else o1
  let o3 := if s.removeEmptySections then removeEmptySections o2 else o2
  jsTrim o3 ++ ['\n']

/-- The regex class `\d` (ASCII digits only). -/
def isDigitC (c : Char) : Bool := 48 ≤ c.toNat && c.toNat ≤ 57

def digitVal (c : Char) : Nat := c.toNat - 48

/-- Match `\d{4}-\d{2}-\d{2}` at the head of the list, returning the numeric
year, month and day. -/
def dateAt : List Char → Option (Nat × Nat × Nat)
  | c1 :: c2 :: c3 :: c4 :: h1 :: c5 :: c6 :: h2 :: c7 :: c8 :: _ =>
    if isDigitC c1 && isDigitC c2 && isDigitC c3 && isDigitC c4 && h1 == '-' &&
       isDigitC c5 && isDigitC c6 && h2 == '-' && isDigitC c7 && isDigitC c8 then
      some (digitVal c1 * 1000 + digitVal c2 * 100 + digitVal c3 * 10 + digitVal c4,
            digitVal c5 * 10 + digitVal c6,
            digitVal c7 * 10 + digitVal c8)
    else none
  | _ => none

/-- `basename.match(/(\d{4}-\d{2}-\d{2})/)`: the first (leftmost) match. -/
def findFirstDate : List Char → Option (Nat × Nat × Nat)
  | [] => none
  | c :: rest =>
    match dateAt (c :: rest) with
    | some r => some r
    | none => findFirstDate rest

def isLeapYear (y : Nat) : Bool := y % 4 == 0 && (y % 100 != 0 || y % 400 == 0)

def daysInMonth (y m : Nat) : Nat :=
  if m == 2 then (if isLeapYear y then 29 else 28)
  else if m == 4 || m == 6 || m == 9 || m == 11 then 30
  else 31

/-- `new Date("YYYY-MM-DD")` yields a valid time (not `NaN`) exactly for real
calendar dates. -/
def isValidDate (y m d : Nat) : Bool :=
  1 ≤ m && m ≤ 12 && 1 ≤ d && d ≤ daysInMonth y m

/-- Days from the Unix epoch to the civil date `y-m-d` (proleptic Gregorian,
the computation behind `Date.getTime()` for an ISO date at UTC midnight). -/
def epochDays (y m d : Nat) : Int :=
  let yi : Int := if m ≤ 2 then (y : Int) - 1 else (y : Int)
  let era : Int := (if 0 ≤ yi then yi else yi - 399) / 400
  let yoe : Int := yi - era * 400
  let mp : Int := ((m : Int) + 9) % 12
  let doy : Int := (153 * mp + 2) / 5 + (d : Int) - 1
  let doe : Int := yoe * 365 + yoe / 4 - yoe / 100 + doy
  era * 146097 + doe - 719468

/-- `fileDate.getTime()`: milliseconds at UTC midnight of the parsed date. -/
def dateMs (y m d : Nat) : Int := epochDays y m d * 86400000

def msPerDay : ℚ := 86400000

/-- `isOldEnough` from the source.  `nowMs` is `new Date().getTime()` (JS time
values are integral milliseconds); the day difference is the exact quotient
`(now - fileDate) / 86 400 000`, compared un-floored against the threshold. -/
def isOldEnough (s : CleanNotesSettings) (nowMs : Int) (basename : List Char) : Bool :=
  match findFirstDate basename with
  | none => false
  | some (y, m, d) =>
    if isValidDate y m d then
      decide ((s.daysAfter : ℚ) ≤ ((nowMs : ℚ) - (dateMs y m d : ℚ)) / msPerDay)
    else false

/-- A file entry of the folder: Obsidian's `TFile` basename/extension plus the
current vault content, together with flags telling whether the store's
`read`/`modify` call for this file would reject. -/
structure VFile where
  basename : List Char
  extension : List Char
  content : List Char
  readFails : Bool
  writeFails : Bool
deriving DecidableEq

/-- A direct child of the resolved folder: a file, or a subfolder (whose own
contents the loop never enters). -/
inductive VEntry where
  | file : VFile → VEntry
  | folder : List VFile → VEntry
deriving DecidableEq

def mdExt : List Char := ("md".toList)

/-- The `for (const child of folder.children)` loop of `cleanNotes`.  Returns
the folder contents after the run, the write requests issued (basename and new
content, most recent first), and whether the loop ran to completion (`false`
when a read or write rejected, which aborts the whole loop). -/
def cleanNotes (s : CleanNotesSettings) (nowMs : Int) :
    List VEntry → List VEntry × List (List Char × List Char) × Bool
  | [] => ([], [], true)
  | .folder sub :: rest =>
    let p := cleanNotes s nowMs rest
    (.folder sub :: p.1, p.2.1, p.2.2)
  | .file f :: rest =>
    if f.extension == mdExt then
      if isOldEnough s nowMs f.basename then
        if f.readFails then (.file f :: rest, [], false)
        else
          let cleaned := applyTransforms s f.content
          if f.content == cleaned then
            let p := cleanNotes s nowMs rest
            (.file f :: p.1, p.2.1, p.2.2)
          else if f.writeFails then (.file f :: rest, [], false)
          else
            let p := cleanNotes s nowMs rest
            (.file { f with content := cleaned } :: p.1,
             (f.basename, cleaned) :: p.2.1, p.2.2)
      else
        let p := cleanNotes s nowMs rest
        (.file f :: p.1, p.2.1, p.2.2)
    else
      let p := cleanNotes s nowMs rest
      (.file f :: p.1, p.2.1, p.2.2)

/-- The opening pattern of the stripper (three backticks immediately followed
by `tag`) occurs at position `i` of `l`. -/
def openerAt (tag l : List Char) (i : Nat) : Bool :=
  (fence ++ tag).isPrefixOf (l.drop i)

/-- The regex `<fence>tag[\s\S]*?<fence>` matches at position `i` of `l`:
the opening pattern occurs there and a closing fence occurs later. -/
def matchAt (tag l : List Char) (i : Nat) : Bool :=
  openerAt tag l i && (findFenceIdx ((l.drop i).drop (3 + tag.length))).isSome

lemma isPrefixOf_append_self (p x : List Char) : p.isPrefixOf (p ++ x) = true := by
  induction p with
  | nil => simp [List.isPrefixOf]
  | cons a as ih => simp [List.isPrefixOf, ih]

lemma openerAt_of_length_le (tag l : List Char) (i : Nat) (h : l.length ≤ i) :
    openerAt tag l i = false := by
  unfold openerAt
  rw [List.drop_eq_nil_of_le h]
  show (btChar :: (btChar :: btChar :: [] ++ tag)).isPrefixOf [] = false
  rfl

lemma matchAt_of_length_le (tag l : List Char) (i : Nat) (h : l.length ≤ i) :
    matchAt tag l i = false := by
  unfold matchAt
  rw [openerAt_of_length_le tag l i h, Bool.false_and]

lemma matchAt_succ_cons (tag : List Char) (c : Char) (l : List Char) (i : Nat) :
    matchAt tag (c :: l) (i + 1) = matchAt tag l i := by
  simp [matchAt, openerAt, List.drop_succ_cons]

lemma stripFromF_nil (tag : List Char) (f : Nat) : stripFromF tag f [] = [] := by
  cases f <;> rfl

lemma stripFromF_id (tag : List Char) :
    ∀ (f : Nat) (l : List Char), (∀ i, matchAt tag l i = false) →
      stripFromF tag f l = l := by
  intro f
  induction f with
  | zero => intro l _; rfl
  | succ f ih =>
    intro l hl
    cases l with
    | nil => rfl
    | cons c rest =>
      have htail : stripFromF tag f rest = rest :=
        ih rest fun i => by rw [← matchAt_succ_cons tag c rest i]; exact hl (i + 1)
      have h0 := hl 0
      simp only [matchAt, openerAt, List.drop_zero, Bool.and_eq_false_iff] at h0
      rcases h0 with h | h
      · simp [stripFromF, h, htail]
      · rcases hcl : findFenceIdx ((c :: rest).drop (3 + tag.length)) with _ | j
        · by_cases hp : (fence ++ tag).isPrefixOf (c :: rest) = true
          · simp [stripFromF, hp, hcl, htail]
          · rw [Bool.not_eq_true] at hp
            simp [stripFromF, hp, htail]
        · rw [hcl] at h
          simp at h

lemma stripFromF_fuel (tag : List Char) :
    ∀ (f g : Nat) (l : List Char), l.length ≤ f → l.length ≤ g →
      stripFromF tag f l = stripFromF tag g l := by
  intro f
  induction f with
  | zero =>
    intro g l hf _
    have : l = [] := List.length_eq_zero.mp (Nat.le_zero.mp hf)
    subst this
    rw [stripFromF_nil, stripFromF_nil]
  | succ f ih =>
    intro g l hf hg
    cases l with
    | nil => rw [stripFromF_nil, stripFromF_nil]
    | cons c rest =>
      cases g with
      | zero => simp at hg
      | succ g =>
        simp only [List.length_cons] at hf hg
        by_cases hp : (fence ++ tag).isPrefixOf (c :: rest) = true
        · rcases hcl : findFenceIdx ((c :: rest).drop (3 + tag.length)) with _ | j
          · simp only [stripFromF, hp, if_true, hcl]
            rw [ih g rest (by omega) (by omega)]
          · simp only [stripFromF, hp, if_true, hcl]
            apply ih
            · simp only [List.length_drop, List.length_cons]
              omega
            · simp only [List.length_drop, List.length_cons]
              omega
        · rw [Bool.not_eq_true] at hp
          simp only [stripFromF, hp, Bool.false_eq_true, if_false]
          rw [ih g rest (by omega) (by omega)]

lemma stripFromF_append (tag : List Char) :
    ∀ (pre rest : List Char) (f : Nat), pre.length + rest.length ≤ f →
      (∀ i, i < pre.length → matchAt tag (pre ++ rest) i = false) →
      stripFromF tag f (pre ++ rest) = pre ++ stripFromF tag (f - pre.length) rest := by
  intro pre
  induction pre with
  | nil => intro rest f _ _; simp
  | cons c pre ih =>
    intro rest f hf hm
    cases f with
    | zero =>
      simp only [List.length_cons] at hf
      omega
    | succ f =>
      have h0 := hm 0 (by simp)
      rw [List.cons_append] at h0 ⊢
      simp only [matchAt, openerAt, List.drop_zero, Bool.and_eq_false_iff] at h0
      have hrec : stripFromF tag f (pre ++ rest) = pre ++ stripFromF tag (f - pre.length) rest := by
        apply ih rest f
        · simp only [List.length_cons] at hf
          omega
        · intro i hi
          have := hm (i + 1) (by simp only [List.length_cons]; omega)
          rwa [List.cons_append, matchAt_succ_cons] at this
      have hlen : f + 1 - (c :: pre).length = f - pre.length := by
        simp only [List.length_cons]
        omega
      rw [hlen]
      rcases h0 with h | h
      · simp only [stripFromF, h, Bool.false_eq_true, if_false, hrec, List.cons_append]
      · rcases hcl : findFenceIdx ((c :: (pre ++ rest)).drop (3 + tag.length)) with _ | j
        · by_cases hp : (fence ++ tag).isPrefixOf (c :: (pre ++ rest)) = true
          · simp only [stripFromF, hp, if_true, hcl, hrec, List.cons_append]
          · rw [Bool.not_eq_true] at hp
            simp only [stripFromF, hp, Bool.false_eq_true, if_false, hrec, List.cons_append]
        · rw [hcl] at h
          simp at h

lemma stripFromF_match_step (tag l : List Char) (f j : Nat)
    (hne : l ≠ []) (hop : (fence ++ tag).isPrefixOf l = true)
    (hcl : findFenceIdx (l.drop (3 + tag.length)) = some j) :
    stripFromF tag (f + 1) l = stripFromF tag f ((l.drop (3 + tag.length)).drop (j + 3)) := by
  cases l with
  | nil => exact absurd rfl hne
  | cons c rest => simp only [stripFromF, hop, if_true, hcl]

lemma stripBlocks_eq_fuel (tag l : List Char) (f : Nat) (hf : l.length ≤ f) :
    stripBlocks tag l = stripFromF tag f l := by
  unfold stripBlocks
  exact stripFromF_fuel tag l.length f l (Nat.le_refl _) hf

lemma findFenceIdx_eq_none_iff :
    ∀ l : List Char, findFenceIdx l = none ↔ ∀ i, fence.isPrefixOf (l.drop i) = false := by
  intro l
  induction l with
  | nil =>
    constructor
    · intro _ i
      rw [List.drop_nil]
      simp [fence, List.isPrefixOf]
    · intro _
      rfl
  | cons c rest ih =>
    by_cases hp : fence.isPrefixOf (c :: rest) = true
    · simp only [findFenceIdx, hp, if_true]
      constructor
      · intro h
        simp at h
      · intro h
        have h0 := h 0
        rw [List.drop_zero, hp] at h0
        cases h0
    · rw [Bool.not_eq_true] at hp
      simp only [findFenceIdx, hp, Bool.false_eq_true, if_false, Option.map_eq_none', ih]
      constructor
      · intro h i
        cases i with
        | zero => rw [List.drop_zero]; exact hp
        | succ i => rw [List.drop_succ_cons]; exact h i
      · intro h i
        have hi := h (i + 1)
        rwa [List.drop_succ_cons] at hi

/-- C4 (corrected, amended claim): BlockStripper's opening match is a prefix
match, not an exact-tag match; what does hold is that a text containing no
occurrence of three backticks immediately followed by the configured tag
(in particular, any text whose fenced blocks all open with a word that does
not begin with the tag) is left entirely untouched by `stripBlocks`. -/
theorem c4_exact_tag_amended (tag text : List Char)
    (hno : ∀ i, i < text.length → openerAt tag text i = false) :
    stripBlocks tag text = text := by
  rw [stripBlocks_eq_fuel tag text text.length (Nat.le_refl _)]
  apply stripFromF_id
  intro i
  unfold matchAt
  by_cases hi : i < text.length
  · rw [hno i hi, Bool.false_and]
  · rw [openerAt_of_length_le tag text i (by omega), Bool.false_and]

/-- Witness for `c4_exact_tag_amended` at a concrete input. -/
theorem c4_amended_witness :
    stripBlocks buttonTag ("x ``buttons ok".toList) = ("x ``buttons ok".toList) :=
  c4_exact_tag_amended buttonTag ("x ``buttons ok".toList) (by decide)

/-- C4 (corrected, counterexample): with configured tag `button`, the text
consisting of a single well-formed fenced block whose opening tag is the
different word `buttons` is not left untouched — the stripper deletes it
entirely, because the regex `<fence>button[\s\S]*?<fence>` matches the opening
fence by prefix. -/
theorem c4_counterexample :
    stripBlocks buttonTag ("```buttons\nX\n```".toList) = [] ∧
    ("```buttons\nX\n```".toList) ≠ ([] : List Char) := by
  constructor
  · decide
  · decide

/-- C8 (corrected, counterexample): in `"<fence>buttonA<fence>buttonB"` (where
`<fence>` is three backticks) the second opening fence has no later occurrence
of three backticks before end-of-text, yet it is not left untouched: the
backticks of that unterminated opening fence are consumed as the lazy closing
fence of the first block, so the output is just `"buttonB"` and the span
starting at the unterminated fence does not survive into the output at all. -/
theorem c8_counterexample :
    stripBlocks buttonTag ("```buttonA```buttonB".toList) = ("buttonB".toList) ∧
    ¬ (("```buttonB".toList) <:+: ("buttonB".toList)) := by
  constructor
  · decide
  · decide

/-- C8 (corrected, amended claim): if the text contains exactly one occurrence
of the opening pattern (three backticks immediately followed by the tag) — so
no earlier block's lazy closing-fence search can consume it — and no three
backticks occur after that opening fence before end-of-text, then the stripper
leaves the whole text, in particular the opening fence and everything after
it, unchanged; no removal occurs. -/
theorem c8_unterminated_amended (tag pre suf : List Char)
    (honly : ∀ i, i < (pre ++ fence ++ tag ++ suf).length →
      openerAt tag (pre ++ fence ++ tag ++ suf) i = true → i = pre.length)
    (hnof : findFenceIdx (tag ++ suf) = none) :
    stripBlocks tag (pre ++ fence ++ tag ++ suf) = pre ++ fence ++ tag ++ suf := by
  have hsuf : findFenceIdx suf = none := by
    rw [findFenceIdx_eq_none_iff] at hnof ⊢
    intro i
    have h := hnof (tag.length + i)
    rwa [← List.drop_drop, List.drop_left] at h
  rw [stripBlocks_eq_fuel _ _ _ (Nat.le_refl _)]
  apply stripFromF_id
  intro i
  unfold matchAt
  by_cases hi : i < (pre ++ fence ++ tag ++ suf).length
  · by_cases hop : openerAt tag (pre ++ fence ++ tag ++ suf) i = true
    · have hieq := honly i hi hop
      subst hieq
      have hdrop : ((pre ++ fence ++ tag ++ suf).drop pre.length).drop (3 + tag.length) = suf := by
        rw [List.append_assoc, List.append_assoc, List.drop_left, ← List.append_assoc]
        exact List.drop_left' (by simp [fence]; omega)
      rw [hdrop, hsuf]
      simp
    · rw [Bool.not_eq_true] at hop
      rw [hop, Bool.false_and]
  · rw [openerAt_of_length_le _ _ _ (by omega), Bool.false_and]

/-- Witness for `c8_unterminated_amended` at a concrete input. -/
theorem c8_amended_witness :
    stripBlocks buttonTag (("A ".toList) ++ fence ++ buttonTag ++ ("X".toList)) =
      ("A ".toList) ++ fence ++ buttonTag ++ ("X".toList) :=
  c8_unterminated_amended buttonTag ("A ".toList) ("X".toList) (by decide) (by decide)

lemma matchAt_append (tag A B : List Char) (i : Nat) :
    matchAt tag (A ++ B) (A.length + i) = matchAt tag B i := by
  unfold matchAt openerAt
  have h : (A ++ B).drop (A.length + i) = B.drop i := by
    rw [← List.drop_drop, List.drop_left]
  rw [h]

/-- C9 (confirmed): for a text `pre ++ <fence>tag body <fence> ++ suf` whose
block is well formed (the first three-backtick occurrence after the opening
fence is exactly the block's closing fence) and which allows no other match of
the stripping pattern (the regex matches nowhere but at the block), stripping
deletes exactly the block span, fences included, and returns `pre ++ suf` with
the surrounding text untouched and directly adjacent. -/
theorem c9_roundtrip (tag pre body suf : List Char)
    (hclose : findFenceIdx (body ++ fence ++ suf) = some body.length)
    (honly : ∀ i, i < (pre ++ fence ++ tag ++ body ++ fence ++ suf).length →
      i ≠ pre.length → matchAt tag (pre ++ fence ++ tag ++ body ++ fence ++ suf) i = false) :
    stripBlocks tag (pre ++ fence ++ tag ++ body ++ fence ++ suf) = pre ++ suf := by
  have hlenR : (fence ++ tag ++ body ++ fence ++ suf).length =
      3 + tag.length + body.length + 3 + suf.length := by
    simp [fence, List.length_append]
    omega
  have hA : fence ++ tag ++ body ++ fence ++ suf =
      (fence ++ tag) ++ (body ++ fence ++ suf) := by
    simp [List.append_assoc]
  rw [stripBlocks_eq_fuel _ _ _ (Nat.le_refl _)]
  have hsplit : pre ++ fence ++ tag ++ body ++ fence ++ suf =
      pre ++ (fence ++ tag ++ body ++ fence ++ suf) := by
    simp [List.append_assoc]
  rw [hsplit] at honly ⊢
  have hpre0 : ∀ i, i < pre.length →
      matchAt tag (pre ++ (fence ++ tag ++ body ++ fence ++ suf)) i = false := by
    intro i hi
    apply honly
    · simp only [List.length_append]
      omega
    · omega
  rw [stripFromF_append tag pre (fence ++ tag ++ body ++ fence ++ suf)
    ((pre ++ (fence ++ tag ++ body ++ fence ++ suf)).length) (by simp) hpre0]
  congr 1
  have hg : (pre ++ (fence ++ tag ++ body ++ fence ++ suf)).length - pre.length =
      (fence ++ tag ++ body ++ fence ++ suf).length := by
    simp only [List.length_append]
    omega
  rw [hg]
  have hpos : 1 ≤ (fence ++ tag ++ body ++ fence ++ suf).length := by
    rw [hlenR]
    omega
  rw [stripFromF_fuel tag _ (((fence ++ tag ++ body ++ fence ++ suf).length - 1) + 1) _
    (Nat.le_refl _) (by omega)]
  have hne : fence ++ tag ++ body ++ fence ++ suf ≠ [] := by
    simp [fence]
  have hop : (fence ++ tag).isPrefixOf (fence ++ tag ++ body ++ fence ++ suf) = true := by
    rw [hA]
    exact isPrefixOf_append_self _ _
  have hdrop1 : (fence ++ tag ++ body ++ fence ++ suf).drop (3 + tag.length) =
      body ++ fence ++ suf := by
    rw [hA]
    exact List.drop_left' (by simp [fence]; omega)
  have hcl : findFenceIdx ((fence ++ tag ++ body ++ fence ++ suf).drop (3 + tag.length)) =
      some body.length := by
    rw [hdrop1]
    exact hclose
  rw [stripFromF_match_step tag _ _ body.length hne hop hcl]
  rw [hdrop1]
  have hdrop2 : (body ++ fence ++ suf).drop (body.length + 3) = suf := by
    rw [List.append_assoc, ← List.drop_drop, List.drop_left]
    exact List.drop_left' (by simp [fence])
  rw [hdrop2]
  rw [stripFromF_fuel tag _ suf.length suf (by rw [hlenR]; omega) (Nat.le_refl _)]
  apply stripFromF_id
  intro i
  by_cases hi : i < suf.length
  · have hTA : pre ++ (fence ++ tag ++ body ++ fence ++ suf) =
        (pre ++ fence ++ tag ++ body ++ fence) ++ suf := by
      simp [List.append_assoc]
    have hlenA : (pre ++ fence ++ tag ++ body ++ fence).length =
        pre.length + 3 + tag.length + body.length + 3 := by
      simp [fence, List.length_append]
      omega
    have hb1 : (pre ++ fence ++ tag ++ body ++ fence).length + i <
        (pre ++ (fence ++ tag ++ body ++ fence ++ suf)).length := by
      rw [hTA]
      simp only [List.length_append]
      omega
    have hb2 : (pre ++ fence ++ tag ++ body ++ fence).length + i ≠ pre.length := by
      rw [hlenA]
      omega
    have h := honly _ hb1 hb2
    rw [hTA, matchAt_append] at h
    exact h
  · exact matchAt_of_length_le tag suf i (by omega)

/-- Witness for `c9_roundtrip` at a concrete input. -/
theorem c9_roundtrip_witness :
    stripBlocks buttonTag
      (("A\n".toList) ++ fence ++ buttonTag ++ ("\nDo X\n".toList) ++ fence ++ ("B\n".toList)) =
      ("A\n".toList) ++ ("B\n".toList) :=
  c9_roundtrip buttonTag ("A\n".toList) ("\nDo X\n".toList) ("B\n".toList)
    (by decide) (by decide)

lemma dropWhile_length_le {α : Type} (p : α → Bool) (l : List α) :
    (l.dropWhile p).length ≤ l.length := by
  induction l with
  | nil => simp
  | cons a as ih =>
    rw [List.dropWhile_cons]
    by_cases h : p a = true
    · simp only [h, if_true]
      exact Nat.le_succ_of_le ih
    · rw [Bool.not_eq_true] at h
      simp [h]

lemma takeWhile_of_dropWhile {α : Type} (p : α → Bool) (l : List α) :
    (l.dropWhile p).takeWhile p = [] := by
  induction l with
  | nil => rfl
  | cons a as ih =>
    rw [List.dropWhile_cons]
    by_cases h : p a = true
    · simp only [h, if_true]
      exact ih
    · rw [Bool.not_eq_true] at h
      simp [List.takeWhile_cons, h]

lemma dropWhile_of_dropWhile {α : Type} (p : α → Bool) (l : List α) :
    (l.dropWhile p).dropWhile p = l.dropWhile p := by
  induction l with
  | nil => rfl
  | cons a as ih =>
    rw [List.dropWhile_cons]
    by_cases h : p a = true
    · simp only [h, if_true]
      exact ih
    · rw [Bool.not_eq_true] at h
      simp [List.dropWhile_cons, h]

lemma pruneLinesF_nil (f : Nat) : pruneLinesF f [] = [] := by
  cases f <;> rfl

lemma pruneLinesF_cons_not_heading (f : Nat) (l : List Char) (rest : List (List Char))
    (h : isHeading l = false) :
    pruneLinesF (f + 1) (l :: rest) = l :: pruneLinesF f rest := by
  simp [pruneLinesF, h]

lemma pruneLinesF_cons_heading_blank (f : Nat) (l : List Char) (rest : List (List Char))
    (h : isHeading l = true) (hb : ((rest.takeWhile fun x => !isHeading x).all isBlank) = true) :
    pruneLinesF (f + 1) (l :: rest) = pruneLinesF f (rest.dropWhile fun x => !isHeading x) := by
  simp [pruneLinesF, h, hb]

lemma pruneLinesF_cons_heading_content (f : Nat) (l : List Char) (rest : List (List Char))
    (h : isHeading l = true) (hb : ((rest.takeWhile fun x => !isHeading x).all isBlank) = false) :
    pruneLinesF (f + 1) (l :: rest) = l :: pruneLinesF f rest := by
  simp [pruneLinesF, h, hb]

lemma pruneLinesF_fuel :
    ∀ (f g : Nat) (ls : List (List Char)), ls.length ≤ f → ls.length ≤ g →
      pruneLinesF f ls = pruneLinesF g ls := by
  intro f
  induction f with
  | zero =>
    intro g ls hf _
    have : ls = [] := List.length_eq_zero.mp (Nat.le_zero.mp hf)
    subst this
    rw [pruneLinesF_nil, pruneLinesF_nil]
  | succ f ih =>
    intro g ls hf hg
    cases ls with
    | nil => rw [pruneLinesF_nil, pruneLinesF_nil]
    | cons l rest =>
      cases g with
      | zero => simp at hg
      | succ g =>
        simp only [List.length_cons] at hf hg
        by_cases hh : isHeading l = true
        · by_cases hb : ((rest.takeWhile fun x => !isHeading x).all isBlank) = true
          · rw [pruneLinesF_cons_heading_blank f l rest hh hb,
              pruneLinesF_cons_heading_blank g l rest hh hb]
            have hd := dropWhile_length_le (fun x => !isHeading x) rest
            exact ih g _ (by omega) (by omega)
          · rw [Bool.not_eq_true] at hb
            rw [pruneLinesF_cons_heading_content f l rest hh hb,
              pruneLinesF_cons_heading_content g l rest hh hb]
            rw [ih g rest (by omega) (by omega)]
        · rw [Bool.not_eq_true] at hh
          rw [pruneLinesF_cons_not_heading f l rest hh,
            pruneLinesF_cons_not_heading g l rest hh]
          rw [ih g rest (by omega) (by omega)]

lemma pruneLines_cons_not_heading (l : List Char) (rest : List (List Char))
    (h : isHeading l = false) :
    pruneLines (l :: rest) = l :: pruneLines rest := by
  unfold pruneLines
  simp only [List.length_cons]
  rw [pruneLinesF_cons_not_heading rest.length l rest h]

lemma pruneLines_cons_heading_blank (l : List Char) (rest : List (List Char))
    (h : isHeading l = true) (hb : ((rest.takeWhile fun x => !isHeading x).all isBlank) = true) :
    pruneLines (l :: rest) = pruneLines (rest.dropWhile fun x => !isHeading x) := by
  unfold pruneLines
  simp only [List.length_cons]
  rw [pruneLinesF_cons_heading_blank rest.length l rest h hb]
  exact pruneLinesF_fuel rest.length _ _ (dropWhile_length_le _ _) (Nat.le_refl _)

lemma pruneLines_cons_heading_content (l : List Char) (rest : List (List Char))
    (h : isHeading l = true) (hb : ((rest.takeWhile fun x => !isHeading x).all isBlank) = false) :
    pruneLines (l :: rest) = l :: pruneLines rest := by
  unfold pruneLines
  simp only [List.length_cons]
  rw [pruneLinesF_cons_heading_content rest.length l rest h hb]

/-- A section in the sense of the spec: a heading line together with the run
of lines up to (excluding) the next heading line or end-of-text. -/
def sectionsOfF : Nat → List (List Char) → List (List Char × List (List Char))
  | 0, _ => []
  | _ + 1, [] => []
  | fuel + 1, l :: rest =>
    (l, rest.takeWhile fun x => !isHeading x) ::
      sectionsOfF fuel (rest.dropWhile fun x => !isHeading x)

def sectionsOf (ls : List (List Char)) : List (List Char × List (List Char)) :=
  sectionsOfF ls.length ls

/-- A section is kept exactly when some line of its body is non-blank. -/
def sectionHasContent (s : List Char × List (List Char)) : Bool :=
  s.2.any fun x => !isBlank x

/-- The pruning result as the spec describes it: the lines before the first
heading are kept; each section whose body has a non-blank line is kept
verbatim (heading and body, in order); each section whose body is all blank is
dropped entirely (heading and scanned blank lines). -/
def specPrune (ls : List (List Char)) : List (List Char) :=
  (ls.takeWhile fun l => !isHeading l) ++
    ((sectionsOf (ls.dropWhile fun l => !isHeading l)).filter sectionHasContent).flatMap
      (fun s => s.1 :: s.2)

lemma sectionsOfF_nil (f : Nat) : sectionsOfF f [] = [] := by
  cases f <;> rfl

lemma sectionsOfF_fuel :
    ∀ (f g : Nat) (ls : List (List Char)), ls.length ≤ f → ls.length ≤ g →
      sectionsOfF f ls = sectionsOfF g ls := by
  intro f
  induction f with
  | zero =>
    intro g ls hf _
    have : ls = [] := List.length_eq_zero.mp (Nat.le_zero.mp hf)
    subst this
    rw [sectionsOfF_nil, sectionsOfF_nil]
  | succ f ih =>
    intro g ls hf hg
    cases ls with
    | nil => rw [sectionsOfF_nil, sectionsOfF_nil]
    | cons l rest =>
      cases g with
      | zero => simp at hg
      | succ g =>
        simp only [List.length_cons] at hf hg
        simp only [sectionsOfF]
        have hd := dropWhile_length_le (fun x => !isHeading x) rest
        rw [ih g _ (by omega) (by omega)]

lemma sectionsOf_cons (l : List Char) (rest : List (List Char)) :
    sectionsOf (l :: rest) = (l, rest.takeWhile fun x => !isHeading x) ::
      sectionsOf (rest.dropWhile fun x => !isHeading x) := by
  unfold sectionsOf
  simp only [List.length_cons, sectionsOfF]
  have hd := dropWhile_length_le (fun x => !isHeading x) rest
  rw [sectionsOfF_fuel rest.length _ _ (by omega) (Nat.le_refl _)]

lemma sectionHasContent_eq (l : List Char) (body : List (List Char)) :
    sectionHasContent (l, body) = !body.all isBlank := by
  unfold sectionHasContent
  induction body with
  | nil => rfl
  | cons b bs ih => simp [List.any_cons, List.all_cons, ih, Bool.not_and]

lemma specPrune_after_drop (rest : List (List Char)) :
    specPrune (rest.dropWhile fun x => !isHeading x) =
      ((sectionsOf (rest.dropWhile fun x => !isHeading x)).filter sectionHasContent).flatMap
        (fun s => s.1 :: s.2) := by
  unfold specPrune
  rw [takeWhile_of_dropWhile, dropWhile_of_dropWhile]
  simp

lemma specPrune_cons_not_heading (l : List Char) (rest : List (List Char))
    (h : isHeading l = false) :
    specPrune (l :: rest) = l :: specPrune rest := by
  unfold specPrune
  rw [List.takeWhile_cons, List.dropWhile_cons]
  simp [h]

lemma specPrune_cons_heading_blank (l : List Char) (rest : List (List Char))
    (h : isHeading l = true) (hb : ((rest.takeWhile fun x => !isHeading x).all isBlank) = true) :
    specPrune (l :: rest) = specPrune (rest.dropWhile fun x => !isHeading x) := by
  rw [specPrune_after_drop]
  unfold specPrune
  rw [List.takeWhile_cons, List.dropWhile_cons]
  simp only [h, Bool.not_true, Bool.false_eq_true, if_false]
  rw [sectionsOf_cons, List.filter_cons]
  simp only [sectionHasContent_eq, hb, Bool.not_true, Bool.false_eq_true, if_false]
  simp

lemma specPrune_cons_heading_content (l : List Char) (rest : List (List Char))
    (h : isHeading l = true) (hb : ((rest.takeWhile fun x => !isHeading x).all isBlank) = false) :
    specPrune (l :: rest) = l :: ((rest.takeWhile fun x => !isHeading x) ++
      ((sectionsOf (rest.dropWhile fun x => !isHeading x)).filter sectionHasContent).flatMap
        (fun s => s.1 :: s.2)) := by
  unfold specPrune
  rw [List.takeWhile_cons, List.dropWhile_cons]
  simp only [h, Bool.not_true, Bool.false_eq_true, if_false]
  rw [sectionsOf_cons, List.filter_cons]
  simp only [sectionHasContent_eq, hb, Bool.not_false, if_true]
  simp

lemma pruneLines_append_not_heading :
    ∀ (body tail : List (List Char)), (∀ x ∈ body, isHeading x = false) →
      pruneLines (body ++ tail) = body ++ pruneLines tail := by
  intro body
  induction body with
  | nil => simp
  | cons b bs ih =>
    intro tail h
    rw [List.cons_append, pruneLines_cons_not_heading b _ (h b (by simp)),
      ih tail (fun x hx => h x (by simp [hx])), List.cons_append]

lemma pruneLines_split (rest : List (List Char)) :
    pruneLines rest = (rest.takeWhile fun x => !isHeading x) ++
      pruneLines (rest.dropWhile fun x => !isHeading x) := by
  conv_lhs => rw [← List.takeWhile_append_dropWhile (fun x => !isHeading x) rest]
  apply pruneLines_append_not_heading
  intro x hx
  have hp := List.mem_takeWhile_imp hx
  simpa using hp

lemma pruneLines_eq_specPrune_aux :
    ∀ (n : Nat) (ls : List (List Char)), ls.length ≤ n → pruneLines ls = specPrune ls := by
  intro n
  induction n with
  | zero =>
    intro ls h
    have : ls = [] := List.length_eq_zero.mp (Nat.le_zero.mp h)
    subst this
    rfl
  | succ n ih =>
    intro ls hlen
    cases ls with
    | nil => rfl
    | cons l rest =>
      simp only [List.length_cons] at hlen
      have hd := dropWhile_length_le (fun x => !isHeading x) rest
      by_cases hh : isHeading l = true
      · by_cases hb : ((rest.takeWhile fun x => !isHeading x).all isBlank) = true
        · rw [pruneLines_cons_heading_blank l rest hh hb,
            specPrune_cons_heading_blank l rest hh hb]
          exact ih _ (by omega)
        · rw [Bool.not_eq_true] at hb
          rw [pruneLines_cons_heading_content l rest hh hb,
            specPrune_cons_heading_content l rest hh hb,
            pruneLines_split rest,
            ih (rest.dropWhile fun x => !isHeading x) (by omega),
            specPrune_after_drop]
      · rw [Bool.not_eq_true] at hh
        rw [pruneLines_cons_not_heading l rest hh, specPrune_cons_not_heading l rest hh,
          ih rest (by omega)]

/-- C5 (confirmed): `removeEmptySections` realises exactly the section-wise
description: lines before the first heading are kept; a heading whose body
(the lines up to the next heading or end-of-text) contains a non-blank line is
kept verbatim, in order, together with all its body lines; a heading whose
body is all blank — headings judged independently of their level — is dropped
together with those blank lines.  In particular a heading followed by only
blank lines up to end-of-text is removed entirely. -/
theorem c5_pruner_spec (text : List Char) :
    removeEmptySections text = joinLines (specPrune (splitLines text)) := by
  unfold removeEmptySections
  rw [pruneLines_eq_specPrune_aux (splitLines text).length (splitLines text) (Nat.le_refl _)]

/-- One pipeline stage as the spec describes it: apply `f` iff `flag` is set;
a disabled stage is skipped entirely. -/
def stage (flag : Bool) (f : List Char → List Char) (t : List Char) : List Char :=
  if flag then f t else t

/-- C6 (confirmed): the pipeline is exactly button-stripping iff its flag is
set, then task-query stripping iff its flag is set, then empty-section pruning
iff its flag is set (each disabled transform skipped entirely), and then — for
every input, whatever the flags — trimming leading and trailing whitespace of
the whole result and appending exactly one trailing newline. -/
theorem c6_pipeline_order (s : CleanNotesSettings) (t : List Char) :
    applyTransforms s t =
      jsTrim (stage s.removeEmptySections removeEmptySections
        (stage s.removeTaskQueries (stripBlocks tasksTag)
          (stage s.removeButtons (stripBlocks buttonTag) t))) ++ ['\n'] := by
  rfl

lemma trimStart_eq_cons (l : List Char) (c : Char) (r : List Char)
    (h : trimStart l = c :: r) : isJsWs c = false := by
  induction l with
  | nil => simp [trimStart] at h
  | cons a t ih =>
    unfold trimStart at h
    rw [List.dropWhile_cons] at h
    by_cases ha : isJsWs a = true
    · simp only [ha, if_true] at h
      exact ih h
    · rw [Bool.not_eq_true] at ha
      simp only [ha, Bool.false_eq_true, if_false] at h
      cases h
      exact ha

lemma trimEnd_append_nl (l : List Char) : trimEnd (l ++ ['\n']) = trimEnd l := by
  unfold trimEnd
  rw [List.reverse_append]
  have hnl : isJsWs '\n' = true := by decide
  simp [List.dropWhile_cons, hnl]

lemma trimEnd_prefix (l : List Char) : trimEnd l <+: l := by
  unfold trimEnd
  rw [← List.reverse_suffix, List.reverse_reverse]
  exact List.dropWhile_suffix isJsWs

lemma trimEnd_idem (l : List Char) : trimEnd (trimEnd l) = trimEnd l := by
  unfold trimEnd
  rw [List.reverse_reverse, dropWhile_of_dropWhile]

lemma jsTrim_append_nl (t : List Char) : jsTrim (jsTrim t ++ ['\n']) = jsTrim t := by
  unfold jsTrim
  cases he : trimEnd (trimStart t) with
  | nil =>
    have hnl : isJsWs '\n' = true := by decide
    simp [trimStart, trimEnd, List.dropWhile_cons, hnl]
  | cons c r =>
    have hpre : trimEnd (trimStart t) <+: trimStart t := trimEnd_prefix _
    rw [he] at hpre
    obtain ⟨w, hw⟩ := hpre
    have hc : isJsWs c = false := by
      apply trimStart_eq_cons t c (r ++ w)
      rw [← hw, List.cons_append]
    have hts : trimStart ((c :: r) ++ ['\n']) = (c :: r) ++ ['\n'] := by
      rw [List.cons_append]
      unfold trimStart
      rw [List.dropWhile_cons]
      simp [hc]
    rw [hts, trimEnd_append_nl, ← he, trimEnd_idem]

/-- C1 (corrected, amended claim): the transform pipeline is not idempotent in
general; what does hold is that the final normalization alone is idempotent:
with all three transform flags disabled (pipeline = trim + newline), applying
the pipeline twice yields the same result as applying it once, for every text.
With a transform enabled a second application can produce further changes. -/
theorem c1_idempotent_amended (s : CleanNotesSettings) (t : List Char)
    (hb : s.removeButtons = false) (hq : s.removeTaskQueries = false)
    (he : s.removeEmptySections = false) :
    applyTransforms s (applyTransforms s t) = applyTransforms s t := by
  unfold applyTransforms
  simp only [hb, hq, he, Bool.false_eq_true, if_false]
  rw [jsTrim_append_nl]

/-- The settings with every transform flag disabled, for the C1 witness. -/
def ALL_OFF : CleanNotesSettings :=
  { dailyNotesFolder := []
    daysAfter := 7
    removeButtons := false
    removeTaskQueries := false
    removeEmptySections := false }

/-- Witness for `c1_idempotent_amended` at a concrete input. -/
theorem c1_amended_witness :
    applyTransforms ALL_OFF (applyTransforms ALL_OFF ("  x ".toList)) =
      applyTransforms ALL_OFF ("  x ".toList) :=
  c1_idempotent_amended ALL_OFF ("  x ".toList) rfl rfl rfl

/-- C1 (corrected, counterexample): with the default configuration (all flags
on), the input `" # A"` maps to `"# A\n"` after one application — the final
trim exposes a heading at the start of the line — and to `"\n"` after two:
the second pass prunes the now-empty heading, so the second application is not
a no-op. -/
theorem c1_counterexample :
    applyTransforms DEFAULT_SETTINGS (" # A".toList) = ("# A\n".toList) ∧
    applyTransforms DEFAULT_SETTINGS (applyTransforms DEFAULT_SETTINGS (" # A".toList)) =
      ("\n".toList) ∧
    ("\n".toList) ≠ ("# A\n".toList) := by
  refine ⟨by decide, by decide, by decide⟩

lemma rat_threshold_iff (T a : Int) :
    ((T : ℚ) ≤ (a : ℚ) / msPerDay) ↔ (T * 86400000 ≤ a) := by
  unfold msPerDay
  rw [le_div_iff₀ (by norm_num : (0 : ℚ) < 86400000)]
  exact_mod_cast Iff.rfl

/-- The exact-division age test is equivalent to an integer comparison;
this makes `isOldEnough` evaluable on concrete inputs. -/
lemma isOldEnough_int (s : CleanNotesSettings) (nowMs : Int) (b : List Char) :
    isOldEnough s nowMs b =
      (match findFirstDate b with
       | none => false
       | some (y, m, d) =>
         if isValidDate y m d then decide (s.daysAfter * 86400000 ≤ nowMs - dateMs y m d)
         else false) := by
  unfold isOldEnough
  cases findFirstDate b with
  | none => rfl
  | some r =>
    obtain ⟨y, m, d⟩ := r
    by_cases hv : isValidDate y m d = true
    · simp only [hv, if_true]
      apply decide_eq_decide.mpr
      rw [show ((nowMs : ℚ) - (dateMs y m d : ℚ)) = ((nowMs - dateMs y m d : Int) : ℚ) by push_cast; ring]
      exact rat_threshold_iff s.daysAfter (nowMs - dateMs y m d)
    · rw [Bool.not_eq_true] at hv
      simp [hv]

lemma findFirstDate_eq_none_iff (l : List Char) :
    findFirstDate l = none ↔ ∀ i, dateAt (l.drop i) = none := by
  induction l with
  | nil =>
    constructor
    · intro _ i
      rw [List.drop_nil]
      rfl
    · intro _
      rfl
  | cons c rest ih =>
    cases hda : dateAt (c :: rest) with
    | some r =>
      simp only [findFirstDate, hda]
      constructor
      · intro h
        cases h
      · intro h
        have h0 := h 0
        rw [List.drop_zero, hda] at h0
        cases h0
    | none =>
      simp only [findFirstDate, hda, ih]
      constructor
      · intro h i
        cases i with
        | zero => rw [List.drop_zero]; exact hda
        | succ i => rw [List.drop_succ_cons]; exact h i
      · intro h i
        have hi := h (i + 1)
        rwa [List.drop_succ_cons] at hi

lemma findFirstDate_is_first :
    ∀ (l : List Char) (r : Nat × Nat × Nat), findFirstDate l = some r →
      ∃ i, dateAt (l.drop i) = some r ∧ ∀ j, j < i → dateAt (l.drop j) = none := by
  intro l
  induction l with
  | nil =>
    intro r h
    cases h
  | cons c rest ih =>
    intro r h
    cases hda : dateAt (c :: rest) with
    | some r' =>
      rw [findFirstDate, hda] at h
      cases h
      exact ⟨0, by rw [List.drop_zero]; exact hda, fun j hj => absurd hj (by omega)⟩
    | none =>
      rw [findFirstDate, hda] at h
      obtain ⟨i, hi, hj⟩ := ih r h
      refine ⟨i + 1, by rw [List.drop_succ_cons]; exact hi, ?_⟩
      intro j hjlt
      cases j with
      | zero => rw [List.drop_zero]; exact hda
      | succ j => rw [List.drop_succ_cons]; exact hj j (by omega)

/-- C3 (confirmed): eligibility is false whenever the identifier has no
`\d{4}-\d{2}-\d{2}`-shaped substring, and false whenever the first such
substring is not a valid calendar date; otherwise it holds iff the continuous
elapsed time from that date at midnight to `now`, divided by 24 hours without
flooring, is at least the threshold — so exactly `T` days elapsed is eligible
and any smaller elapsed value (including a negative one for a future date) is
not.  The extracted triple really is the first match: some position matches it
and every earlier position fails to match. -/
theorem c3_eligibility (s : CleanNotesSettings) (nowMs : Int) (basename : List Char)
    (hT : 0 ≤ s.daysAfter) :
    ((∀ i, dateAt (basename.drop i) = none) → isOldEnough s nowMs basename = false) ∧
    (∀ y m d, findFirstDate basename = some (y, m, d) → isValidDate y m d = false →
      isOldEnough s nowMs basename = false) ∧
    (∀ y m d, findFirstDate basename = some (y, m, d) → isValidDate y m d = true →
      (isOldEnough s nowMs basename = true ↔
        (s.daysAfter : ℚ) ≤ ((nowMs : ℚ) - (dateMs y m d : ℚ)) / msPerDay)) ∧
    (∀ y m d, findFirstDate basename = some (y, m, d) → isValidDate y m d = true →
      ((nowMs : ℚ) - (dateMs y m d : ℚ)) / msPerDay < (s.daysAfter : ℚ) →
      isOldEnough s nowMs basename = false) ∧
    (∀ y m d, findFirstDate basename = some (y, m, d) →
      ∃ i, dateAt (basename.drop i) = some (y, m, d) ∧
        ∀ j, j < i → dateAt (basename.drop j) = none) := by
  refine ⟨?_, ?_, ?_, ?_, ?_⟩
  · intro h
    have hn : findFirstDate basename = none := (findFirstDate_eq_none_iff basename).mpr h
    simp [isOldEnough, hn]
  · intro y m d hf hv
    simp [isOldEnough, hf, hv]
  · intro y m d hf hv
    simp [isOldEnough, hf, hv, decide_eq_true_iff]
  · intro y m d hf hv hlt
    simp only [isOldEnough, hf, hv, if_true]
    rw [decide_eq_false_iff_not]
    exact not_le.mpr hlt
  · intro y m d hf
    exact findFirstDate_is_first basename (y, m, d) hf

/-- Witness for `c3_eligibility` at a concrete input: identifier
`2023-01-01-note`, threshold 7 days, now = midnight of 2023-01-10. -/
theorem c3_eligibility_witness :
    isOldEnough DEFAULT_SETTINGS (dateMs 2023 1 10) ("2023-01-01-note".toList) = true ↔
      ((DEFAULT_SETTINGS.daysAfter : ℚ) ≤
        ((dateMs 2023 1 10 : ℚ) - (dateMs 2023 1 1 : ℚ)) / msPerDay) :=
  (c3_eligibility DEFAULT_SETTINGS (dateMs 2023 1 10) ("2023-01-01-note".toList)
    (by decide)).2.2.1 2023 1 1 (by decide) (by decide)

lemma cleanNotes_nil (s : CleanNotesSettings) (nowMs : Int) :
    cleanNotes s nowMs [] = ([], [], true) := rfl

lemma cleanNotes_folder (s : CleanNotesSettings) (nowMs : Int) (sub : List VFile)
    (rest : List VEntry) :
    cleanNotes s nowMs (.folder sub :: rest) =
      (.folder sub :: (cleanNotes s nowMs rest).1,
       (cleanNotes s nowMs rest).2.1, (cleanNotes s nowMs rest).2.2) := rfl

lemma cleanNotes_file_nonmd (s : CleanNotesSettings) (nowMs : Int) (f : VFile)
    (rest : List VEntry) (hext : (f.extension == mdExt) = false) :
    cleanNotes s nowMs (.file f :: rest) =
      (.file f :: (cleanNotes s nowMs rest).1,
       (cleanNotes s nowMs rest).2.1, (cleanNotes s nowMs rest).2.2) := by
  simp [cleanNotes, hext]

lemma cleanNotes_file_young (s : CleanNotesSettings) (nowMs : Int) (f : VFile)
    (rest : List VEntry) (hext : (f.extension == mdExt) = true)
    (helig : isOldEnough s nowMs f.basename = false) :
    cleanNotes s nowMs (.file f :: rest) =
      (.file f :: (cleanNotes s nowMs rest).1,
       (cleanNotes s nowMs rest).2.1, (cleanNotes s nowMs rest).2.2) := by
  simp [cleanNotes, hext, helig]

lemma cleanNotes_file_readfail (s : CleanNotesSettings) (nowMs : Int) (f : VFile)
    (rest : List VEntry) (hext : (f.extension == mdExt) = true)
    (helig : isOldEnough s nowMs f.basename = true) (hr : f.readFails = true) :
    cleanNotes s nowMs (.file f :: rest) = (.file f :: rest, [], false) := by
  simp [cleanNotes, hext, helig, hr]

lemma cleanNotes_file_clean (s : CleanNotesSettings) (nowMs : Int) (f : VFile)
    (rest : List VEntry) (hext : (f.extension == mdExt) = true)
    (helig : isOldEnough s nowMs f.basename = true) (hr : f.readFails = false)
    (hc : (f.content == applyTransforms s f.content) = true) :
    cleanNotes s nowMs (.file f :: rest) =
      (.file f :: (cleanNotes s nowMs rest).1,
       (cleanNotes s nowMs rest).2.1, (cleanNotes s nowMs rest).2.2) := by
  simp [cleanNotes, hext, helig, hr, hc]

lemma cleanNotes_file_writefail (s : CleanNotesSettings) (nowMs : Int) (f : VFile)
    (rest : List VEntry) (hext : (f.extension == mdExt) = true)
    (helig : isOldEnough s nowMs f.basename = true) (hr : f.readFails = false)
    (hc : (f.content == applyTransforms s f.content) = false)
    (hw : f.writeFails = true) :
    cleanNotes s nowMs (.file f :: rest) = (.file f :: rest, [], false) := by
  simp [cleanNotes, hext, helig, hr, hc, hw]

lemma cleanNotes_file_write (s : CleanNotesSettings) (nowMs : Int) (f : VFile)
    (rest : List VEntry) (hext : (f.extension == mdExt) = true)
    (helig : isOldEnough s nowMs f.basename = true) (hr : f.readFails = false)
    (hc : (f.content == applyTransforms s f.content) = false)
    (hw : f.writeFails = false) :
    cleanNotes s nowMs (.file f :: rest) =
      (.file { f with content := applyTransforms s f.content } :: (cleanNotes s nowMs rest).1,
       (f.basename, applyTransforms s f.content) :: (cleanNotes s nowMs rest).2.1,
       (cleanNotes s nowMs rest).2.2) := by
  simp [cleanNotes, hext, helig, hr, hc, hw]

/-- Full characterization of the loop: every output entry is either the input
entry unchanged, or the cleaned version of an eligible dirty `md` file; and
every write request comes from an eligible `md` file whose transform changed
its content, carrying exactly the transformed content. -/
lemma cleanNotes_chars (s : CleanNotesSettings) (nowMs : Int) :
    ∀ l : List VEntry,
      List.Forall₂ (fun e e' => e' = e ∨ ∃ f : VFile, e = VEntry.file f ∧
          f.extension = mdExt ∧ isOldEnough s nowMs f.basename = true ∧
          applyTransforms s f.content ≠ f.content ∧
          e' = VEntry.file { f with content := applyTransforms s f.content })
        l (cleanNotes s nowMs l).1 ∧
      (∀ p ∈ (cleanNotes s nowMs l).2.1, ∃ f : VFile, VEntry.file f ∈ l ∧
          f.extension = mdExt ∧ isOldEnough s nowMs f.basename = true ∧
          p.1 = f.basename ∧ p.2 = applyTransforms s f.content ∧
          applyTransforms s f.content ≠ f.content) := by
  intro l
  induction l with
  | nil =>
    refine ⟨?_, ?_⟩
    · rw [cleanNotes_nil]
      exact List.Forall₂.nil
    · intro p hp
      rw [cleanNotes_nil] at hp
      cases hp
  | cons e rest ih =>
    obtain ⟨ihF, ihW⟩ := ih
    have hlift : ∀ p : List Char × List Char, (∃ f : VFile, VEntry.file f ∈ rest ∧
        f.extension = mdExt ∧ isOldEnough s nowMs f.basename = true ∧
        p.1 = f.basename ∧ p.2 = applyTransforms s f.content ∧
        applyTransforms s f.content ≠ f.content) →
        (∃ f : VFile, VEntry.file f ∈ e :: rest ∧
        f.extension = mdExt ∧ isOldEnough s nowMs f.basename = true ∧
        p.1 = f.basename ∧ p.2 = applyTransforms s f.content ∧
        applyTransforms s f.content ≠ f.content) := by
      rintro p ⟨f, hm, hrest⟩
      exact ⟨f, List.mem_cons_of_mem e hm, hrest⟩
    have hsame : List.Forall₂ (fun e e' => e' = e ∨ ∃ f : VFile, e = VEntry.file f ∧
        f.extension = mdExt ∧ isOldEnough s nowMs f.basename = true ∧
        applyTransforms s f.content ≠ f.content ∧
        e' = VEntry.file { f with content := applyTransforms s f.content }) rest rest :=
      List.forall₂_same.mpr fun x _ => Or.inl rfl
    cases e with
    | folder sub =>
      rw [cleanNotes_folder]
      exact ⟨List.Forall₂.cons (Or.inl rfl) ihF, fun p hp => hlift p (ihW p hp)⟩
    | file f =>
      by_cases hext : (f.extension == mdExt) = true
      · by_cases helig : isOldEnough s nowMs f.basename = true
        · by_cases hr : f.readFails = true
          · rw [cleanNotes_file_readfail s nowMs f rest hext helig hr]
            refine ⟨List.Forall₂.cons (Or.inl rfl) hsame, ?_⟩
            intro p hp
            cases hp
          · rw [Bool.not_eq_true] at hr
            by_cases hc : (f.content == applyTransforms s f.content) = true
            · rw [cleanNotes_file_clean s nowMs f rest hext helig hr hc]
              exact ⟨List.Forall₂.cons (Or.inl rfl) ihF, fun p hp => hlift p (ihW p hp)⟩
            · rw [Bool.not_eq_true] at hc
              have hne : applyTransforms s f.content ≠ f.content :=
                (ne_of_beq_false hc).symm
              by_cases hw : f.writeFails = true
              · rw [cleanNotes_file_writefail s nowMs f rest hext helig hr hc hw]
                refine ⟨List.Forall₂.cons (Or.inl rfl) hsame, ?_⟩
                intro p hp
                cases hp
              · rw [Bool.not_eq_true] at hw
                rw [cleanNotes_file_write s nowMs f rest hext helig hr hc hw]
                refine ⟨List.Forall₂.cons
                  (Or.inr ⟨f, rfl, beq_iff_eq.mp hext, helig, hne, rfl⟩) ihF, ?_⟩
                intro p hp
                rcases List.mem_cons.mp hp with h | h
                · rw [h]
                  exact ⟨f, List.mem_cons_self _ _, beq_iff_eq.mp hext, helig, rfl, rfl, hne⟩
                · exact hlift p (ihW p h)
        · rw [Bool.not_eq_true] at helig
          rw [cleanNotes_file_young s nowMs f rest hext helig]
          exact ⟨List.Forall₂.cons (Or.inl rfl) ihF, fun p hp => hlift p (ihW p hp)⟩
      · rw [Bool.not_eq_true] at hext
        rw [cleanNotes_file_nonmd s nowMs f rest hext]
        exact ⟨List.Forall₂.cons (Or.inl rfl) ihF, fun p hp => hlift p (ihW p hp)⟩

/-- C7 (confirmed): whenever an entry is a file whose transformed text is
byte-for-byte identical to its content, the run leaves that entry unchanged
(whatever its position), and every write request the run issues belongs to an
eligible `md` file whose transformed content differs from the original — so no
write is ever requested for a document whose transform is the identity. -/
theorem c7_no_write_when_clean (s : CleanNotesSettings) (nowMs : Int) (l : List VEntry) :
    List.Forall₂ (fun e e' => ∀ f : VFile, e = VEntry.file f →
        applyTransforms s f.content = f.content → e' = e) l (cleanNotes s nowMs l).1 ∧
    (∀ p ∈ (cleanNotes s nowMs l).2.1, ∃ f : VFile, VEntry.file f ∈ l ∧
        f.extension = mdExt ∧ isOldEnough s nowMs f.basename = true ∧
        p.1 = f.basename ∧ p.2 = applyTransforms s f.content ∧
        applyTransforms s f.content ≠ f.content) := by
  obtain ⟨hF, hW⟩ := cleanNotes_chars s nowMs l
  refine ⟨?_, hW⟩
  refine List.Forall₂.imp ?_ hF
  rintro a b (rfl | ⟨g, rfl, _, _, hgne, rfl⟩)
  · intro f _ _
    rfl
  · intro f hf hclean
    cases hf
    exact absurd hclean hgne

/-- An already-clean file (its content is a fixpoint of the pipeline), used as
the concrete instance for `c7_no_write_when_clean`; its `writeFails` flag is
set, so a write request for it would abort the run. -/
def cleanSample : VFile :=
  { basename := ("2023-01-01".toList)
    extension := mdExt
    content := ("# Notes\n\nActual text\n".toList)
    readFails := false
    writeFails := true }

/-- Witness for `c7_no_write_when_clean` at a concrete input. -/
theorem c7_witness :
    List.Forall₂ (fun e e' => ∀ f : VFile, e = VEntry.file f →
        applyTransforms DEFAULT_SETTINGS f.content = f.content → e' = e)
      [VEntry.file cleanSample]
      (cleanNotes DEFAULT_SETTINGS (dateMs 2023 1 10) [VEntry.file cleanSample]).1 ∧
    (∀ p ∈ (cleanNotes DEFAULT_SETTINGS (dateMs 2023 1 10) [VEntry.file cleanSample]).2.1,
      ∃ f : VFile, VEntry.file f ∈ [VEntry.file cleanSample] ∧
        f.extension = mdExt ∧
        isOldEnough DEFAULT_SETTINGS (dateMs 2023 1 10) f.basename = true ∧
        p.1 = f.basename ∧ p.2 = applyTransforms DEFAULT_SETTINGS f.content ∧
        applyTransforms DEFAULT_SETTINGS f.content ≠ f.content) :=
  c7_no_write_when_clean DEFAULT_SETTINGS (dateMs 2023 1 10) [VEntry.file cleanSample]

/-- C10 (confirmed): the run changes only direct children that are files with
extension `md`: every subfolder entry and every file entry with a different
extension comes out of the run unchanged, and every write request names an
`md` file of the folder. -/
theorem c10_frame (s : CleanNotesSettings) (nowMs : Int) (l : List VEntry) :
    List.Forall₂ (fun e e' =>
        (∀ sub : List VFile, e = VEntry.folder sub → e' = e) ∧
        (∀ f : VFile, e = VEntry.file f → f.extension ≠ mdExt → e' = e))
      l (cleanNotes s nowMs l).1 ∧
    (∀ p ∈ (cleanNotes s nowMs l).2.1, ∃ f : VFile, VEntry.file f ∈ l ∧
        f.extension = mdExt ∧ p.1 = f.basename) := by
  obtain ⟨hF, hW⟩ := cleanNotes_chars s nowMs l
  refine ⟨?_, ?_⟩
  · refine List.Forall₂.imp ?_ hF
    rintro a b (rfl | ⟨g, rfl, hgext, _, _, rfl⟩)
    · exact ⟨fun _ _ => rfl, fun _ _ _ => rfl⟩
    · refine ⟨?_, ?_⟩
      · intro sub h
        simp at h
      · intro f h hne
        cases h
        exact absurd hgext hne
  · intro p hp
    obtain ⟨f, hm, hext, _, hb, _, _⟩ := hW p hp
    exact ⟨f, hm, hext, hb⟩

/-- A non-`md` file with both failure flags set: the run must never read or
write it, so its flags can never fire. -/
def txtSample : VFile :=
  { basename := ("2023-01-01".toList)
    extension := ("txt".toList)
    content := ("```button\nX\n```".toList)
    readFails := true
    writeFails := true }

/-- Witness for `c10_frame` at a concrete input containing a subfolder and a
non-`md` file. -/
theorem c10_witness :
    List.Forall₂ (fun e e' =>
        (∀ sub : List VFile, e = VEntry.folder sub → e' = e) ∧
        (∀ f : VFile, e = VEntry.file f → f.extension ≠ mdExt → e' = e))
      [VEntry.folder [txtSample], VEntry.file txtSample]
      (cleanNotes DEFAULT_SETTINGS (dateMs 2023 1 10)
        [VEntry.folder [txtSample], VEntry.file txtSample]).1 ∧
    (∀ p ∈ (cleanNotes DEFAULT_SETTINGS (dateMs 2023 1 10)
        [VEntry.folder [txtSample], VEntry.file txtSample]).2.1,
      ∃ f : VFile, VEntry.file f ∈ [VEntry.folder [txtSample], VEntry.file txtSample] ∧
        f.extension = mdExt ∧ p.1 = f.basename) :=
  c10_frame DEFAULT_SETTINGS (dateMs 2023 1 10) [VEntry.folder [txtSample], VEntry.file txtSample]

/-- C2 (corrected, amended claim): a failure reading or writing an eligible
`md` document does not stay confined to that document — it aborts the whole
run at that point: the failing document and every remaining entry are left
untouched, no further write is requested, and the run does not complete. -/
theorem c2_isolation_amended (s : CleanNotesSettings) (nowMs : Int) (f : VFile)
    (rest : List VEntry) (hmd : f.extension = mdExt)
    (helig : isOldEnough s nowMs f.basename = true)
    (hfail : f.readFails = true ∨
      (f.writeFails = true ∧ applyTransforms s f.content ≠ f.content)) :
    cleanNotes s nowMs (.file f :: rest) = (.file f :: rest, [], false) := by
  have hext : (f.extension == mdExt) = true := beq_iff_eq.mpr hmd
  rcases hfail with hr | ⟨hw, hne⟩
  · exact cleanNotes_file_readfail s nowMs f rest hext helig hr
  · by_cases hr : f.readFails = true
    · exact cleanNotes_file_readfail s nowMs f rest hext helig hr
    · rw [Bool.not_eq_true] at hr
      have hc : (f.content == applyTransforms s f.content) = false := by
        rw [beq_eq_false_iff_ne]
        exact fun h => hne h.symm
      exact cleanNotes_file_writefail s nowMs f rest hext helig hr hc hw

/-- An eligible `md` file whose read rejects. -/
def crashFile : VFile :=
  { basename := ("2023-01-01".toList)
    extension := mdExt
    content := ("x".toList)
    readFails := true
    writeFails := false }

/-- An eligible dirty `md` file (its transform changes the content) whose
read and write both succeed. -/
def dirtyFile : VFile :=
  { basename := ("2023-01-02".toList)
    extension := mdExt
    content := (" # A".toList)
    readFails := false
    writeFails := false }

/-- Witness for `c2_isolation_amended` at a concrete input. -/
theorem c2_amended_witness :
    cleanNotes DEFAULT_SETTINGS (dateMs 2023 1 10) [VEntry.file crashFile] =
      ([VEntry.file crashFile], [], false) :=
  c2_isolation_amended DEFAULT_SETTINGS (dateMs 2023 1 10) crashFile [] rfl
    (by rw [isOldEnough_int]; decide) (Or.inl rfl)

/-- C2 (corrected, counterexample): with the failing document first, the run
aborts and the remaining eligible dirty document is neither transformed nor
written (its content stays `" # A"` and no write request is issued), although
on its own that document would be rewritten to `"# A\n"` — so a failure on one
document does abort the processing of the remaining documents. -/
theorem c2_counterexample :
    cleanNotes DEFAULT_SETTINGS (dateMs 2023 1 10) [.file crashFile, .file dirtyFile] =
      ([.file crashFile, .file dirtyFile], [], false) ∧
    cleanNotes DEFAULT_SETTINGS (dateMs 2023 1 10) [.file dirtyFile] =
      ([.file { dirtyFile with content := ("# A\n".toList) }],
       [(("2023-01-02".toList), ("# A\n".toList))], true) ∧
    ("# A\n".toList) ≠ (" # A".toList) := by
  have h1 : isOldEnough DEFAULT_SETTINGS (dateMs 2023 1 10) crashFile.basename = true := by
    rw [isOldEnough_int]
    decide
  have h2 : isOldEnough DEFAULT_SETTINGS (dateMs 2023 1 10) dirtyFile.basename = true := by
    rw [isOldEnough_int]
    decide
  refine ⟨?_, ?_, by decide⟩
  · exact cleanNotes_file_readfail _ _ _ _ (by decide) h1 rfl
  · rw [cleanNotes_file_write _ _ _ _ (by decide) h2 rfl (by decide) rfl]
    decide
